import Mathlib

/-!
# AzProof core — shallow embedding and verification

This file embeds the core of the AzProof repository (receipt ledger,
dual hashing, Merkle anchoring, provider co-occurrence graph, connected
component clustering, compression fraud scoring) as executable Lean
definitions, translated from the Python source in `src/`, and proves or
refutes the specification's claims about them.

Modelling conventions:
- Python `dict`s with string keys become association lists
  (`List (String × Json)`); insertion replaces in place (Python dict
  literal semantics) and lookup returns the first match.
- Python `float` arithmetic is modelled over `ℚ`; the scoring logic only
  branches on comparisons and one division, which are exact here.
- Python `str` values are Lean `String`s; character-level operations
  (`split`, `strip`) are modelled over `List Char` (`String.data`).
- The wall clock (`datetime.now`) is passed in as an explicit `ts`
  argument; the ledger-append side effect of `emit_receipt` is dropped
  (no claim concerns it).
-/

set_option maxRecDepth 10000

namespace AzProof

/-- JSON-like values: the payloads carried by receipts.  Numbers are
modelled as integers (the claims only exercise integral payloads). -/
inductive Json where
  | null : Json
  | bool (bv : Bool) : Json
  | num (iv : Int) : Json
  | str (sv : String) : Json
  | arr (elts : List Json) : Json
  | obj (entries : List (String × Json)) : Json

/-- A receipt (or any Python dict with string keys) as an ordered
association list, mirroring Python's insertion-ordered `dict`. -/
abbrev Receipt := List (String × Json)

/-- `d[k]` / `d.get(k)`: first-match lookup. -/
def lookupField (r : Receipt) (k : String) : Option Json :=
  match r with
  | [] => none
  | (k', v) :: t => if k' = k then some v else lookupField t k

/-- Python dict insertion: replace in place if the key exists, else
append at the end (dict literal / `**` merge semantics). -/
def insertPy (r : Receipt) (k : String) (v : Json) : Receipt :=
  match r with
  | [] => [(k, v)]
  | (k', v') :: t => if k' = k then (k', v) :: t else (k', v') :: insertPy t k v

/-- `COMPRESSION_BASELINE_MEDICAID = 0.65` from `src/core.py`. -/
def COMPRESSION_BASELINE_MEDICAID : ℚ := 13/20

/-- `COMPRESSION_FRAUD_THRESHOLD = 0.40` from `src/core.py` (the floor
threshold of the fraud score). -/
def COMPRESSION_FRAUD_THRESHOLD : ℚ := 2/5

/-- `compression_fraud_score(ratio, baseline)` from
`src/entropy/compression.py` lines 49-81: non-positive ratios score 1;
at or above baseline scores 0; at or below the floor threshold scores 1;
otherwise the inverted linear interpolation, clamped to [0,1]. -/
def compression_fraud_score (r : ℚ) (b : ℚ) : ℚ :=
  if r ≤ 0 then 1
  else if b ≤ r then 0
  else if r ≤ COMPRESSION_FRAUD_THRESHOLD then 1
  else
    let range_size := b - COMPRESSION_FRAUD_THRESHOLD
    let position := r - COMPRESSION_FRAUD_THRESHOLD
    let score := 1 - position / range_size
    max 0 (min 1 score)

/-! ## Bytes, hex and SHA-256

`dual_hash` calls `hashlib.sha256`; the optional `blake3` library is
runtime-probed (`HAS_BLAKE3`) and this embedding models the documented
fallback branch, where the second digest is SHA-256 over
`b"blake3_fallback:" + data`.  SHA-256 itself is implemented here from
the FIPS 180-4 standard, over byte lists (`Nat` values < 256) with
32-bit words as `Nat` reduced `% 2^32`. -/

/-- UTF-8 encoding of one Unicode code point. -/
def utf8Bytes (c : Nat) : List Nat :=
  if c < 128 then [c]
  else if c < 2048 then [192 + c / 64, 128 + c % 64]
  else if c < 65536 then [224 + c / 4096, 128 + c / 64 % 64, 128 + c % 64]
  else [240 + c / 262144, 128 + c / 4096 % 64, 128 + c / 64 % 64, 128 + c % 64]

/-- `str.encode('utf-8')`. -/
def strBytes (s : String) : List Nat :=
  s.data.foldr (fun c acc => utf8Bytes c.toNat ++ acc) []

/-- 32-bit right rotation. -/
def rotr32 (n w : Nat) : Nat := ((w >>> n) ||| (w <<< (32 - n))) % 4294967296

/-- The 64 SHA-256 round constants. -/
def sha256K : List Nat :=
  [1116352408, 1899447441, 3049323471, 3921009573, 961987163, 1508970993,
   2453635748, 2870763221, 3624381080, 310598401, 607225278, 1426881987,
   1925078388, 2162078206, 2614888103, 3248222580, 3835390401, 4022224774,
   264347078, 604807628, 770255983, 1249150122, 1555081692, 1996064986,
   2554220882, 2821834349, 2952996808, 3210313671, 3336571891, 3584528711,
   113926993, 338241895, 666307205, 773529912, 1294757372, 1396182291,
   1695183700, 1986661051, 2177026350, 2456956037, 2730485921, 2820302411,
   3259730800, 3345764771, 3516065817, 3600352804, 4094571909, 275423344,
   430227734, 506948616, 659060556, 883997877, 958139571, 1322822218,
   1537002063, 1747873779, 1955562222, 2024104815, 2227730452, 2361852424,
   2428436474, 2756734187, 3204031479, 3329325298]

/-- The running SHA-256 state: eight 32-bit words. -/
structure Sha256State where
  a : Nat
  b : Nat
  c : Nat
  d : Nat
  e : Nat
  f : Nat
  g : Nat
  h : Nat

/-- SHA-256 initial hash value. -/
def shaH0 : Sha256State :=
  ⟨1779033703, 3144134277, 1013904242, 2773480762, 1359893119, 2600822924, 528734635, 1541459225⟩

/-- SHA-256 `Ch` function (`¬x` as xor with `2^32 - 1`). -/
def shaCh (x y z : Nat) : Nat := (x &&& y) ^^^ ((x ^^^ 4294967295) &&& z)

/-- SHA-256 `Maj` function. -/
def shaMaj (x y z : Nat) : Nat := (x &&& y) ^^^ (x &&& z) ^^^ (y &&& z)

/-- SHA-256 `Σ0`. -/
def bsig0 (x : Nat) : Nat := rotr32 2 x ^^^ rotr32 13 x ^^^ rotr32 22 x

/-- SHA-256 `Σ1`. -/
def bsig1 (x : Nat) : Nat := rotr32 6 x ^^^ rotr32 11 x ^^^ rotr32 25 x

/-- SHA-256 `σ0`. -/
def ssig0 (x : Nat) : Nat := rotr32 7 x ^^^ rotr32 18 x ^^^ (x >>> 3)

/-- SHA-256 `σ1`. -/
def ssig1 (x : Nat) : Nat := rotr32 17 x ^^^ rotr32 19 x ^^^ (x >>> 10)

/-- SHA-256 message padding: `0x80`, zeros to 56 mod 64, then the bit
length as 8 big-endian bytes. -/
def shaPad (msg : List Nat) : List Nat :=
  let bitLen := msg.length * 8
  let padlen := (119 - msg.length % 64) % 64
  msg ++ [128] ++ List.replicate padlen 0
      ++ (List.range 8).map (fun i => (bitLen >>> (8 * (7 - i))) % 256)

/-- Split a byte list into 64-byte blocks (the fuel passed by `chunk64`
bounds the block count, so it never runs out). -/
def chunk64F : Nat → List Nat → List (List Nat)
  | 0, _ => []
  | _, [] => []
  | fuel + 1, x :: xs => ((x :: xs).take 64) :: chunk64F fuel ((x :: xs).drop 64)

/-- Split a byte list into 64-byte blocks. -/
def chunk64 (l : List Nat) : List (List Nat) := chunk64F l.length l

/-- The 16 big-endian 32-bit words of one 64-byte block. -/
def wordsOfBlock (b : List Nat) : List Nat :=
  (List.range 16).map (fun i =>
    b.getD (4 * i) 0 * 16777216 + b.getD (4 * i + 1) 0 * 65536
      + b.getD (4 * i + 2) 0 * 256 + b.getD (4 * i + 3) 0)

/-- Extend 16 words to the 64-word message schedule. -/
def shaSchedule (w16 : List Nat) : List Nat :=
  (List.range 48).foldl (fun w _ =>
    let n := w.length
    w ++ [(ssig1 (w.getD (n - 2) 0) + w.getD (n - 7) 0
            + ssig0 (w.getD (n - 15) 0) + w.getD (n - 16) 0) % 4294967296]) w16

/-- One SHA-256 round. -/
def shaRound (w : List Nat) (s : Sha256State) (i : Nat) : Sha256State :=
  let t1 := (s.h + bsig1 s.e + shaCh s.e s.f s.g + sha256K.getD i 0 + w.getD i 0) % 4294967296
  let t2 := (bsig0 s.a + shaMaj s.a s.b s.c) % 4294967296
  ⟨(t1 + t2) % 4294967296, s.a, s.b, s.c, (s.d + t1) % 4294967296, s.e, s.f, s.g⟩

/-- Compress one 64-byte block into the state. -/
def compressBlock (s : Sha256State) (block : List Nat) : Sha256State :=
  let w := shaSchedule (wordsOfBlock block)
  let r := (List.range 64).foldl (shaRound w) s
  ⟨(s.a + r.a) % 4294967296, (s.b + r.b) % 4294967296, (s.c + r.c) % 4294967296,
   (s.d + r.d) % 4294967296, (s.e + r.e) % 4294967296, (s.f + r.f) % 4294967296,
   (s.g + r.g) % 4294967296, (s.h + r.h) % 4294967296⟩

/-- SHA-256 of a byte list, as the final state. -/
def sha256Run (msg : List Nat) : Sha256State :=
  (chunk64 (shaPad msg)).foldl compressBlock shaH0

/-- The sixteen lowercase hex digits. -/
def hexDigits : List Char := "0123456789abcdef".data

/-- One lowercase hex digit. -/
def hexChar (n : Nat) : Char := hexDigits.getD n '0'

/-- A 32-bit word as 8 hex characters. -/
def hex8 (w : Nat) : List Char :=
  (List.range 8).map (fun i => hexChar ((w >>> (4 * (7 - i))) % 16))

/-- The 64 hex characters of a SHA-256 digest. -/
def sha256hexChars (msg : List Nat) : List Char :=
  let s := sha256Run msg
  hex8 s.a ++ hex8 s.b ++ hex8 s.c ++ hex8 s.d ++ hex8 s.e ++ hex8 s.f ++ hex8 s.g ++ hex8 s.h

/-- `hashlib.sha256(data).hexdigest()`. -/
def sha256hex (msg : List Nat) : String := String.mk (sha256hexChars msg)

/-- `dual_hash` from `src/core.py` lines 92-117 on bytes, in the
fallback branch (`HAS_BLAKE3 = False`): the second digest is SHA-256 of
`b"blake3_fallback:" + data`, and the result is the colon-joined pair of
hex digests. -/
def dual_hash (data : List Nat) : String :=
  sha256hex data ++ ":" ++ sha256hex (strBytes "blake3_fallback:" ++ data)

/-- `dual_hash` on a string argument (encoded to UTF-8 first). -/
def dualHashStr (s : String) : String := dual_hash (strBytes s)

/-! ## Canonical JSON serialization (`json.dumps(·, sort_keys=True)`)

Python's default formatting: items joined by `", "`, keys suffixed
`": "`, non-ASCII and control characters `\uXXXX`-escaped
(`ensure_ascii=True`), object keys sorted.  `default=str` only fires on
non-serializable objects, which the `Json` model does not contain. -/

/-- Four hex characters (for `\uXXXX` escapes). -/
def hex4 (n : Nat) : List Char :=
  (List.range 4).map (fun i => hexChar ((n >>> (4 * (3 - i))) % 16))

/-- `\uXXXX` escape of a code point (surrogate pair above 0xFFFF). -/
def uEscapeChars (n : Nat) : List Char :=
  if n < 65536 then '\\' :: 'u' :: hex4 n
  else
    let m := n - 65536
    ('\\' :: 'u' :: hex4 (55296 + m / 1024)) ++ ('\\' :: 'u' :: hex4 (56320 + m % 1024))

/-- JSON string escaping of one character, as CPython's ASCII encoder
does it (everything outside 0x20-0x7E escaped). -/
def jsonEscapeChar (c : Char) : List Char :=
  if c = '"' then ['\\', '"']
  else if c = '\\' then ['\\', '\\']
  else if c = '\n' then ['\\', 'n']
  else if c = '\t' then ['\\', 't']
  else if c = '\r' then ['\\', 'r']
  else if c.toNat = 8 then ['\\', 'b']
  else if c.toNat = 12 then ['\\', 'f']
  else if c.toNat < 32 || 126 < c.toNat then uEscapeChars c.toNat
  else [c]

/-- A JSON string literal with quotes and escapes. -/
def jsonQuote (s : String) : String :=
  "\"" ++ String.mk (s.data.foldr (fun c acc => jsonEscapeChar c ++ acc) []) ++ "\""

/-- Join with Python's default `", "` separator. -/
def joinComma : List String → String
  | [] => ""
  | [x] => x
  | x :: xs => x ++ ", " ++ joinComma xs

/-- Insert into a key-sorted list of rendered fields. -/
def insertByKey (p : String × String) : List (String × String) → List (String × String)
  | [] => [p]
  | q :: t => if p.1 < q.1 then p :: q :: t else q :: insertByKey p t

/-- Sort rendered fields by key (`sort_keys=True`; dict keys are
unique, so stability is immaterial). -/
def sortByKey (l : List (String × String)) : List (String × String) :=
  l.foldr insertByKey []

mutual

/-- `json.dumps(v, sort_keys=True, default=str)`. -/
def json_dumps : Json → String
  | .null => "null"
  | .bool true => "true"
  | .bool false => "false"
  | .num n => toString n
  | .str s => jsonQuote s
  | .arr xs => "[" ++ joinComma (dumpsList xs) ++ "]"
  | .obj fs => "\x7b" ++ joinComma
      ((sortByKey (dumpsFields fs)).map
        (fun kv => jsonQuote kv.1 ++ ": " ++ kv.2)) ++ "\x7d"

/-- Render each array element. -/
def dumpsList : List Json → List String
  | [] => []
  | x :: xs => json_dumps x :: dumpsList xs

/-- Render each object field's value, keeping its key. -/
def dumpsFields : List (String × Json) → List (String × String)
  | [] => []
  | (k, v) :: fs => (k, json_dumps v) :: dumpsFields fs

end

/-! ## Ledger: emit, validate, merkle (`src/core.py`) -/

/-- `TENANT_ID = "azproof"`. -/
def TENANT_ID : String := "azproof"

/-- `emit_receipt(receipt_type, data, tenant_id)` from `src/core.py`
lines 120-153: stamp `receipt_type`, the timestamp `ts` (passed
explicitly here in place of `datetime.now`), `tenant_id`, merge the
payload fields over them (dict-literal semantics: a payload key
overrides in place), then set `payload_hash` to the dual hash of the
canonical payload serialization.  The ledger-append side effect is
dropped. -/
def emit_receipt (receipt_type : String) (data : Receipt) (ts : String)
    (tenant_id : String) : Receipt :=
  let payload_hash := dualHashStr (json_dumps (Json.obj data))
  insertPy
    (data.foldl (fun r kv => insertPy r kv.1 kv.2)
      [("receipt_type", Json.str receipt_type), ("ts", Json.str ts),
       ("tenant_id", Json.str tenant_id)])
    "payload_hash" (Json.str payload_hash)

/-- Python `s.split(":")` over the character list. -/
def pySplitColon : List Char → List (List Char)
  | [] => [[]]
  | c :: t =>
    match pySplitColon t with
    | [] => [[c]]
    | h :: r => if c = ':' then [] :: h :: r else (c :: h) :: r

/-- Python `str()` of a JSON value, as interpolated into the reason
strings (list/dict rendering approximated by their JSON form; no
repository value reaches those cases). -/
def pyStr (j : Json) : String :=
  match j with
  | .null => "None"
  | .bool true => "True"
  | .bool false => "False"
  | .num n => toString n
  | .str s => s
  | .arr _ => json_dumps j
  | .obj _ => json_dumps j

/-- The `required_fields` list of `validate_receipt`. -/
def requiredFields : List String := ["receipt_type", "ts", "tenant_id", "payload_hash"]

/-- The `for field in required_fields` presence loop: first missing
field, if any. -/
def missingField (r : Receipt) : Option String :=
  requiredFields.findSome? (fun f => if (lookupField r f).isNone then some f else none)

/-- Lines 300-309 of `validate_receipt`: the `payload_hash` format
check — a colon present, exactly two colon-separated parts, each of
length 64 (hexadecimality of the characters is not inspected). -/
def hashFormatCheck (ph : String) : Bool × String :=
  if (ph.data.contains ':') = false then (false, "Invalid hash format: " ++ ph)
  else
    let parts := pySplitColon ph.data
    if parts.length == 2 && (parts.getD 0 []).length == 64 && (parts.getD 1 []).length == 64
    then (true, "valid")
    else (false, "Invalid hash lengths in: " ++ ph)

/-- `validate_receipt(receipt)` from `src/core.py` lines 281-309.
`none` models the `TypeError` Python would raise at `":" in
payload_hash` when the present `payload_hash` value is not a string
(and the unreachable lookup-after-presence-check case). -/
def validate_receipt (receipt : Receipt) : Option (Bool × String) :=
  match missingField receipt with
  | some f => some (false, "Missing required field: " ++ f)
  | none =>
    match lookupField receipt "tenant_id" with
    | some (Json.str s) =>
        if s ≠ TENANT_ID then some (false, "Invalid tenant_id: " ++ s)
        else
          match lookupField receipt "payload_hash" with
          | some (Json.str ph) => some (hashFormatCheck ph)
          | some _ => none
          | none => none
    | some v => some (false, "Invalid tenant_id: " ++ pyStr v)
    | none => none

/-- An item accepted by `merkle`: `Union[str, bytes, Dict]`. -/
inductive MerkleItem where
  | str (s : String)
  | bytes (b : List Nat)
  | dict (d : Receipt)

/-- Lines 214-218 of `merkle`: dicts canonicalize to sorted-key JSON,
strings encode to UTF-8, bytes pass through. -/
def canonical (x : MerkleItem) : List Nat :=
  match x with
  | .str s => strBytes s
  | .bytes b => b
  | .dict d => strBytes (json_dumps (Json.obj d))

/-- Odd level: duplicate the last hash (lines 223-225). -/
def merklePad (hs : List String) : List String :=
  if hs.length % 2 = 1 then hs ++ [hs.getLastD ""] else hs

/-- Pairwise combine: `dual_hash(hashes[i] + hashes[i+1])` (lines
227-230). -/
def merklePairs : List String → List String
  | a :: b :: t => dualHashStr (a ++ b) :: merklePairs t
  | _ => []

/-- The `while len(hashes) > 1` loop of `merkle`; the fuel passed by
`merkle` (the item count) bounds the number of halving iterations, so it
never runs out. -/
def merkleCombineFuel : Nat → List String → String
  | 0, hs => hs.headD (dualHashStr "")
  | fuel + 1, hs =>
      if hs.length ≤ 1 then hs.headD (dualHashStr "")
      else merkleCombineFuel fuel (merklePairs (merklePad hs))

/-- `merkle(items)` from `src/core.py` lines 196-233. -/
def merkle (items : List MerkleItem) : String :=
  if items.isEmpty then dualHashStr ""
  else merkleCombineFuel items.length (items.map (fun it => dual_hash (canonical it)))

/-! ## Ledger load (`load_receipts`, `src/core.py` lines 171-193)

`json.loads` is modelled by a recursive-descent JSON parser over the
line's characters (fuel-bounded recursion; the fuel is ample for any
input).  Model restrictions: numbers parse as integers (fractional or
exponent forms are rejected rather than parsed as floats) and `\u`
surrogate pairs are not recombined; the claims only exercise integral
payloads. -/

/-- The `{` character (code 123). -/
def lbrace : Char := Char.ofNat 123

/-- The `}` character (code 125). -/
def rbrace : Char := Char.ofNat 125

/-- JSON whitespace. -/
def isJsonWs (c : Char) : Bool := c = ' ' || c = '\t' || c = '\n' || c = '\r'

/-- Skip leading JSON whitespace. -/
def skipWs : List Char → List Char
  | [] => []
  | c :: t => if isJsonWs c then skipWs t else c :: t

/-- One hex digit's value. -/
def hexVal (ch : Char) : Option Nat :=
  if ch.isDigit then some (ch.toNat - 48)
  else if 'a' ≤ ch ∧ ch ≤ 'f' then some (ch.toNat - 87)
  else if 'A' ≤ ch ∧ ch ≤ 'F' then some (ch.toNat - 55)
  else none

/-- Four hex digits (a `\uXXXX` escape payload). -/
def parseHex4 (l : List Char) : Option (Nat × List Char) :=
  match l with
  | a :: b :: c :: d :: t =>
      match hexVal a, hexVal b, hexVal c, hexVal d with
      | some x, some y, some z, some w => some (((x * 16 + y) * 16 + z) * 16 + w, t)
      | _, _, _, _ => none
  | _ => none

/-- One escape character's translation. -/
def escTrans (e : Char) : Option Char :=
  if e = '"' then some '"'
  else if e = '\\' then some '\\'
  else if e = '/' then some '/'
  else if e = 'n' then some '\n'
  else if e = 't' then some '\t'
  else if e = 'r' then some '\r'
  else if e = 'b' then some (Char.ofNat 8)
  else if e = 'f' then some (Char.ofNat 12)
  else none

/-- Parse a JSON string body after the opening quote, returning the
characters and the remainder after the closing quote. -/
def parseStringBody : Nat → List Char → Option (List Char × List Char)
  | 0, _ => none
  | _, [] => none
  | fuel + 1, c :: t =>
      if c = '"' then some ([], t)
      else if c = '\\' then
        match t with
        | [] => none
        | e :: t2 =>
            if e = 'u' then
              match parseHex4 t2 with
              | some (n, t3) =>
                  match parseStringBody fuel t3 with
                  | some (rest, t4) => some (Char.ofNat n :: rest, t4)
                  | none => none
              | none => none
            else
              match escTrans e with
              | some ch =>
                  match parseStringBody fuel t2 with
                  | some (rest, t3) => some (ch :: rest, t3)
                  | none => none
              | none => none
      else if c.toNat < 32 then none
      else
        match parseStringBody fuel t with
        | some (rest, t2) => some (c :: rest, t2)
        | none => none

/-- Take a maximal run of decimal digits. -/
def takeDigits : List Char → List Char × List Char
  | [] => ([], [])
  | c :: t =>
      if c.isDigit then
        match takeDigits t with
        | (ds, r) => (c :: ds, r)
      else ([], c :: t)

/-- Digits to a natural number. -/
def digitsToNat (ds : List Char) : Nat :=
  ds.foldl (fun acc c => acc * 10 + (c.toNat - 48)) 0

/-- Fractional or exponent continuation (a float, outside the model). -/
def looksLikeFloat : List Char → Bool
  | '.' :: _ => true
  | 'e' :: _ => true
  | 'E' :: _ => true
  | _ => false

/-- Parse a JSON integer (optionally negative). -/
def parseNumber (l : List Char) : Option (Json × List Char) :=
  match l with
  | '-' :: t =>
      match takeDigits t with
      | ([], _) => none
      | (ds, r) => if looksLikeFloat r then none else some (Json.num (-(digitsToNat ds : Int)), r)
  | _ =>
      match takeDigits l with
      | ([], _) => none
      | (ds, r) => if looksLikeFloat r then none else some (Json.num (digitsToNat ds : Int), r)

mutual

/-- Parse one JSON value (after optional whitespace). -/
def parseVal : Nat → List Char → Option (Json × List Char)
  | 0, _ => none
  | fuel + 1, l =>
    match skipWs l with
    | [] => none
    | c :: t =>
      if c = 'n' then
        match t with
        | 'u' :: 'l' :: 'l' :: r => some (Json.null, r)
        | _ => none
      else if c = 't' then
        match t with
        | 'r' :: 'u' :: 'e' :: r => some (Json.bool true, r)
        | _ => none
      else if c = 'f' then
        match t with
        | 'a' :: 'l' :: 's' :: 'e' :: r => some (Json.bool false, r)
        | _ => none
      else if c = '"' then
        match parseStringBody (t.length + 1) t with
        | some (cs, r) => some (Json.str (String.mk cs), r)
        | none => none
      else if c = '[' then
        match skipWs t with
        | ']' :: r => some (Json.arr [], r)
        | t2 =>
            match parseElems fuel t2 with
            | some (vs, r) => some (Json.arr vs, r)
            | none => none
      else if c = lbrace then
        match skipWs t with
        | [] => none
        | d :: r =>
            if d = rbrace then some (Json.obj [], r)
            else
              match parseFields fuel (d :: r) with
              | some (fs, r2) => some (Json.obj fs, r2)
              | none => none
      else if c = '-' || c.isDigit then parseNumber (c :: t)
      else none

/-- Parse comma-separated array elements up to `]`. -/
def parseElems : Nat → List Char → Option (List Json × List Char)
  | 0, _ => none
  | fuel + 1, l =>
    match parseVal fuel l with
    | none => none
    | some (v, r) =>
      match skipWs r with
      | ',' :: r2 =>
          match parseElems fuel r2 with
          | some (vs, r3) => some (v :: vs, r3)
          | none => none
      | ']' :: r2 => some ([v], r2)
      | _ => none

/-- Parse comma-separated object fields up to the closing brace. -/
def parseFields : Nat → List Char → Option (List (String × Json) × List Char)
  | 0, _ => none
  | fuel + 1, l =>
    match skipWs l with
    | [] => none
    | c :: t =>
      if c = '"' then
        match parseStringBody (t.length + 1) t with
        | some (ks, r) =>
          match skipWs r with
          | ':' :: r2 =>
            match parseVal fuel r2 with
            | none => none
            | some (v, r3) =>
              match skipWs r3 with
              | ',' :: r4 =>
                  match parseFields fuel r4 with
                  | some (fs, r5) => some ((String.mk ks, v) :: fs, r5)
                  | none => none
              | d :: r4 => if d = rbrace then some ([(String.mk ks, v)], r4) else none
              | [] => none
          | _ => none
        | none => none
      else none

end

/-- `json.loads(s)`: parse one value and require only whitespace after
it; `none` models a raised `JSONDecodeError`. -/
def json_loads (s : String) : Option Json :=
  match parseVal (s.data.length + 1) s.data with
  | some (v, rest) => if (skipWs rest).isEmpty then some v else none
  | none => none

/-- Python string whitespace (`str.strip`'s default set, common cases). -/
def isPyWs (c : Char) : Bool :=
  c = ' ' || c = '\t' || c = '\n' || c = '\r' || c.toNat = 11 || c.toNat = 12

/-- `line.strip()`. -/
def pyStrip (s : String) : String :=
  String.mk (((s.data.dropWhile isPyWs).reverse.dropWhile isPyWs).reverse)

/-- The `for line in f:` loop of `load_receipts`: strip each line, skip
blank lines, parse the rest in order; a parse failure propagates as the
raised `JSONDecodeError` (modelled as `Except.error` carrying the
offending stripped line). -/
def loadGo : List String → List Json → Except String (List Json)
  | [], acc => Except.ok acc
  | l :: t, acc =>
      let stripped := pyStrip l
      if stripped.data.isEmpty then loadGo t acc
      else
        match json_loads stripped with
        | some v => loadGo t (acc ++ [v])
        | none => Except.error stripped

/-- `load_receipts(path)` from `src/core.py` lines 171-193; the file is
its list of lines, `none` standing for a missing file
(`FileNotFoundError` is caught and yields the empty list). -/
def load_receipts (file : Option (List String)) : Except String (List Json) :=
  match file with
  | none => Except.ok []
  | some lines => loadGo lines []

/-! ## Provider network graph (`src/medicaid/network.py`) -/

/-- An edge of the provider graph: the dicts
`{"source": .., "target": .., "weight": .., "type": ..}` built by
`build_provider_graph`. -/
structure Edge where
  source : String
  target : String
  weight : Nat
  type : String
deriving DecidableEq

/-- A node of the provider graph: the `provider_data` dicts built by
`build_provider_graph` (`detect_clusters` reads
`node.get("provider_id") or node`, which for these dicts is the
non-empty `provider_id` string). -/
structure NodeRec where
  provider_id : String
  provider_name : Json
  claim_count : Nat
  total_billed : Int

/-- The graph dict returned by `build_provider_graph`. -/
structure Graph where
  nodes : List NodeRec
  edges : List Edge
  n_providers : Nat
  n_edges : Nat

/-- A cluster dict appended by `detect_clusters`. -/
structure Cluster where
  cluster_id : String
  providers : List String
  size : Nat
  edge_count : Nat
  total_weight : Nat
  density : ℚ
deriving DecidableEq

/-- Python `set.add` on an insertion-ordered set model. -/
def setInsert (l : List String) (x : String) : List String :=
  if x ∈ l then l else l ++ [x]

/-- Adjacency map `Dict[str, Set[str]]` as an association list whose
neighbor lists record insertion order. -/
abbrev Adj := List (String × List String)

/-- `adjacency.get(k, [])`. -/
def adjLookup (a : Adj) (k : String) : List String :=
  match a with
  | [] => []
  | (k', v) :: t => if k' = k then v else adjLookup t k

/-- `adjacency[k].add(v)` (defaultdict semantics). -/
def adjAdd (a : Adj) (k : String) (v : String) : Adj :=
  match a with
  | [] => [(k, [v])]
  | (k', vs) :: t => if k' = k then (k', setInsert vs v) :: t else (k', vs) :: adjAdd t k v

/-- The adjacency-building loop of `detect_clusters` lines 96-99. -/
def buildAdjacency (edges : List Edge) : Adj :=
  edges.foldl (fun a e => adjAdd (adjAdd a e.source e.target) e.target e.source) []

/-- The BFS `while queue:` loop of `detect_clusters` lines 115-122,
returning the final `(visited, component)`.  `ord` models the order in
which Python iterates the neighbor `set` (unspecified: str hashes are
randomized per process); the queue is FIFO (`queue.pop(0)`).  The fuel
bound `nodes + 2·edges + 1` passed by `detect_clusters` exceeds the
total number of queue pushes, so it never runs out. -/
def bfsLoop (ord : List String → List String) (adj : Adj) :
    Nat → List String → List String → List String → List String × List String
  | 0, _, visited, component => (visited, component)
  | _ + 1, [], visited, component => (visited, component)
  | fuel + 1, current :: queue, visited, component =>
      let step := (ord (adjLookup adj current)).foldl
        (fun (p : List String × List String) nb =>
          if nb ∈ p.1 then p else (p.1 ++ [nb], p.2 ++ [nb]))
        (visited, [])
      bfsLoop ord adj fuel (queue ++ step.2) step.1 (component ++ [current])

/-- The cluster dict appended at `detect_clusters` lines 132-139. -/
def mkCluster (idx : Nat) (component : List String) (cluster_edges : List Edge) : Cluster :=
  { cluster_id := "cluster_" ++ toString idx
    providers := component
    size := component.length
    edge_count := cluster_edges.length
    total_weight := cluster_edges.foldl (fun acc e => acc + e.weight) 0
    density := (cluster_edges.length : ℚ)
      / max 1 (((component.length : ℚ) * ((component.length : ℚ) - 1)) / 2) }

/-- Lines 124-139 of `detect_clusters`: given the BFS result
`res = (visited, component)`, keep the component if it reaches
`min_size`, computing its edges, weight and density. -/
def clusterFinish (edges : List Edge) (min_size : Nat)
    (st : List String × List Cluster) (res : List String × List String) :
    List String × List Cluster :=
  if min_size ≤ res.2.length then
    (res.1, st.2 ++ [mkCluster (st.2.length + 1) res.2
      (edges.filter (fun e => res.2.contains e.source && res.2.contains e.target))])
  else (res.1, st.2)

/-- One iteration of the `for node in nodes:` loop of `detect_clusters`
(state: `(visited, clusters)`). -/
def clusterStep (ord : List String → List String) (adj : Adj) (edges : List Edge)
    (min_size fuel : Nat) (st : List String × List Cluster) (node : NodeRec) :
    List String × List Cluster :=
  if node.provider_id ∈ st.1 then st
  else
    clusterFinish edges min_size st
      (bfsLoop ord adj fuel [node.provider_id] (st.1 ++ [node.provider_id]) [])

/-- `detect_clusters(graph, min_size)` from `src/medicaid/network.py`
lines 78-141, parameterized by the neighbor-set iteration order `ord`
(Python iterates a `set`, whose order is not a function of the input). -/
def detectClustersWith (ord : List String → List String) (g : Graph) (min_size : Nat) :
    List Cluster :=
  if g.nodes.isEmpty then []
  else
    let adj := buildAdjacency g.edges
    let fuel := g.nodes.length + 2 * g.edges.length + 1
    (g.nodes.foldl (clusterStep ord adj g.edges min_size fuel) ([], [])).2

/-- `detect_clusters` with the canonical (insertion-order) neighbor
iteration. -/
def detect_clusters (g : Graph) (min_size : Nat) : List Cluster :=
  detectClustersWith (fun l => l) g min_size

/-- Drop the edges whose weight is below `w` (the edge-filtering step
the spec's `FindComponents(graph, minEdgeWeight, minSize)` prescribes). -/
def dropEdgesBelow (g : Graph) (w : Nat) : Graph :=
  { g with edges := g.edges.filter (fun e => decide (w ≤ e.weight)) }

/-- Modelled from the spec: `FindComponents(graph, minEdgeWeight,
minSize)` — "drop edges below `minEdgeWeight`", then build adjacency,
traverse, discard small components and compute density and aggregate
weight (the pipeline `detect_clusters` implements). -/
def findComponents (g : Graph) (minEdgeWeight : Nat) (minSize : Nat) : List Cluster :=
  detect_clusters (dropEdgesBelow g minEdgeWeight) minSize

/-! ## Co-occurrence graph construction (`build_provider_graph`,
`src/medicaid/network.py` lines 14-75)

Provider and patient ids are strings in this system (validated non-empty
at ingest); Python's truthiness test `if provider_id:` is modelled as
"present, a string, and non-empty".  The `set` of providers and the
per-patient provider `set`s are modelled in insertion order; every fact
proved about them (edge multiset, weights, counts) is independent of
that order. -/

/-- Generic association-list lookup (first match). -/
def alookup {α : Type} : List (String × α) → String → Option α
  | [], _ => none
  | (k', v) :: t, k => if k' = k then some v else alookup t k

/-- Generic association-list update in place (append if absent). -/
def aset {α : Type} : List (String × α) → String → α → List (String × α)
  | [], k, v => [(k, v)]
  | (k', v') :: t, k, v => if k' = k then (k', v) :: t else (k', v') :: aset t k v

/-- `claim.get(key)` followed by the truthiness test. -/
def getStrField (r : Receipt) (k : String) : Option String :=
  match lookupField r k with
  | some (Json.str s) => if s = "" then none else some s
  | _ => none

/-- `claim.get("billed_amount") or 0` (numeric claims only). -/
def getBilled (r : Receipt) : Int :=
  match lookupField r "billed_amount" with
  | some (Json.num n) => n
  | _ => 0

/-- `claim.get("provider_name")`. -/
def getName (r : Receipt) : Json := (lookupField r "provider_name").getD Json.null

/-- The loop state of `build_provider_graph` lines 28-46. -/
structure BuildSt where
  patient_providers : List (String × List String)
  providers : List String
  provider_data : List (String × NodeRec)

/-- One iteration of the `for claim in claims:` loop (lines 32-46). -/
def ingestClaim (st : BuildSt) (claim : Receipt) : BuildSt :=
  match getStrField claim "provider_id" with
  | none => st
  | some pid =>
      let prev := alookup st.provider_data pid
      let newRec : NodeRec :=
        { provider_id := pid
          provider_name := getName claim
          claim_count := (match prev with | some pr => pr.claim_count | none => 0) + 1
          total_billed := (match prev with | some pr => pr.total_billed | none => 0)
            + getBilled claim }
      let st1 : BuildSt :=
        { st with providers := setInsert st.providers pid,
                  provider_data := aset st.provider_data pid newRec }
      match getStrField claim "patient_id" with
      | none => st1
      | some pat =>
          { st1 with patient_providers :=
              (aset st1.patient_providers pat
                (setInsert ((alookup st1.patient_providers pat).getD []) pid)) }

/-- All index-ordered pairs of a list (the `for i / for j in range(i+1, …)`
double loop of lines 54-57). -/
def allPairs {α : Type} : List α → List (α × α)
  | [] => []
  | x :: xs => xs.map (fun y => (x, y)) ++ allPairs xs

/-- `tuple(sorted([p, q]))`. -/
def sortPair (p q : String) : String × String := if p ≤ q then (p, q) else (q, p)

/-- `edge_weights[edge_key] += 1` (defaultdict(int) semantics; a new key
appends at the end, preserving dict insertion order). -/
def bumpWeight : List ((String × String) × Nat) → (String × String) →
    List ((String × String) × Nat)
  | [], key => [(key, 1)]
  | (k, w) :: t, key => if k = key then (k, w + 1) :: t else (k, w) :: bumpWeight t key

/-- The edge-weight accumulation over all patient groups (lines 52-57). -/
def edgeWeights (groups : List (String × List String)) : List ((String × String) × Nat) :=
  groups.foldl
    (fun ws g => (allPairs g.2).foldl (fun ws2 p => bumpWeight ws2 (sortPair p.1 p.2)) ws) []

/-- The accumulated weight of one edge key (0 when absent). -/
def wLookup : List ((String × String) × Nat) → (String × String) → Nat
  | [], _ => 0
  | (k, w) :: t, key => if k = key then w else wLookup t key

/-- The `receipt_type == "medicaid_ingest"` filter (line 25). -/
def isMedicaidIngest (r : Receipt) : Bool :=
  match lookupField r "receipt_type" with
  | some (Json.str s) => s == "medicaid_ingest"
  | _ => false

/-- `build_provider_graph(receipts)` from `src/medicaid/network.py`
lines 14-75.  The unreachable node default `{"provider_id": p}` carries
inert placeholder fields. -/
def build_provider_graph (receipts : List Receipt) : Graph :=
  let claims := receipts.filter isMedicaidIngest
  let st := claims.foldl ingestClaim ⟨[], [], []⟩
  let ws := edgeWeights st.patient_providers
  let edges := ws.map (fun kw => Edge.mk kw.1.1 kw.1.2 kw.2 "shared_patient")
  let nodes := st.providers.map (fun p =>
    (alookup st.provider_data p).getD ⟨p, Json.null, 0, 0⟩)
  Graph.mk nodes edges st.providers.length edges.length

/-- A minimal `medicaid_ingest` claim linking a provider to a patient. -/
def mkIngestClaim (e pat : String) : Receipt :=
  [("receipt_type", Json.str "medicaid_ingest"), ("provider_id", Json.str e),
   ("patient_id", Json.str pat)]

/-- A node record carrying only an id (name/count/sum fields inert). -/
def mkNode (s : String) : NodeRec := ⟨s, Json.null, 0, 0⟩

/-- Two providers joined by one shared-patient edge of weight 1. -/
def exampleGraphAB : Graph :=
  ⟨[mkNode "A", mkNode "B"], [⟨"A", "B", 1, "shared_patient"⟩], 2, 1⟩

/-- A star: provider A shares one patient with B and one with C. -/
def exampleGraphABC : Graph :=
  ⟨[mkNode "A", mkNode "B", mkNode "C"],
   [⟨"A", "B", 1, "shared_patient"⟩, ⟨"A", "C", 1, "shared_patient"⟩], 3, 2⟩

/-- A hexadecimal digit as `dual_hash` produces them (lowercase). -/
def isHexChar (c : Char) : Bool := c.isDigit || ('a' ≤ c && c ≤ 'f')

/-- A receipt whose `payload_hash` has two 64-character components made
of the non-hex character 'z'. -/
def badHexReceipt : Receipt :=
  [("receipt_type", Json.str "test"),
   ("ts", Json.str "2024-01-01T00:00:00+00:00"),
   ("tenant_id", Json.str "azproof"),
   ("payload_hash", Json.str (String.mk (List.replicate 64 'z' ++ ':' :: List.replicate 64 'z')))]

/-! ## Theorems -/

/-- Inserting then looking up the same key yields the inserted value. -/
theorem lookupField_insertPy_self (r : Receipt) (k : String) (v : Json) :
    lookupField (insertPy r k v) k = some v := by
  induction r with
  | nil => simp [insertPy, lookupField]
  | cons p t ih =>
      rcases p with ⟨k', v'⟩
      by_cases h : k' = k
      · simp [insertPy, h, lookupField]
      · simp [insertPy, h, lookupField, ih]

/-- Inserting one key leaves lookups of other keys unchanged. -/
theorem lookupField_insertPy_ne (r : Receipt) (k' k : String) (v : Json) (h : k' ≠ k) :
    lookupField (insertPy r k' v) k = lookupField r k := by
  induction r with
  | nil => simp [insertPy, lookupField, h]
  | cons p t ih =>
      rcases p with ⟨k₀, v₀⟩
      by_cases h0 : k₀ = k'
      · subst h0
        simp [insertPy, lookupField, h]
      · by_cases h1 : k₀ = k
        · simp [insertPy, lookupField, h0, h1, Ne.symm h]
        · simp [insertPy, lookupField, h0, h1, ih]

/-- Insertion preserves key presence. -/
theorem lookupField_isSome_insertPy (r : Receipt) (k' k : String) (v : Json)
    (h : (lookupField r k).isSome) : (lookupField (insertPy r k' v) k).isSome := by
  by_cases hk : k' = k
  · subst hk
    rw [lookupField_insertPy_self]
    rfl
  · rw [lookupField_insertPy_ne r k' k v hk]
    exact h

/-- A successful lookup means the key occurs in the dict. -/
theorem mem_keys_of_lookupField (r : Receipt) (k : String) (v : Json)
    (h : lookupField r k = some v) : k ∈ r.map Prod.fst := by
  induction r with
  | nil => simp [lookupField] at h
  | cons p t ih =>
      rcases p with ⟨k₀, v₀⟩
      by_cases h0 : k₀ = k
      · simp [h0]
      · simp only [lookupField, if_neg h0] at h
        simp [ih h]

/-- Folding a duplicate-free dict into a base via `insertPy` looks up as
the dict first, the base second (Python `{**base, **data}` semantics). -/
theorem lookupField_fold_insertPy (data : Receipt) :
    ∀ (base : Receipt) (k : String), (data.map Prod.fst).Nodup →
      lookupField (data.foldl (fun r kv => insertPy r kv.1 kv.2) base) k
        = (lookupField data k).elim (lookupField base k) some := by
  induction data with
  | nil => intro base k _; simp [lookupField]
  | cons p t ih =>
      intro base k hnd
      rcases p with ⟨k₀, v₀⟩
      simp only [List.map_cons, List.nodup_cons] at hnd
      obtain ⟨hk₀, hndt⟩ := hnd
      show lookupField (t.foldl _ (insertPy base k₀ v₀)) k = _
      rw [ih (insertPy base k₀ v₀) k hndt]
      by_cases hk : k₀ = k
      · subst hk
        have ht : lookupField t k₀ = none := by
          cases hlt : lookupField t k₀ with
          | none => rfl
          | some v => exact absurd (mem_keys_of_lookupField t k₀ v hlt) hk₀
        rw [ht]
        simp [lookupField, lookupField_insertPy_self]
      · have hcons : lookupField ((k₀, v₀) :: t) k = lookupField t k := by
          simp [lookupField, hk]
        rw [hcons, lookupField_insertPy_ne base k₀ k v₀ hk]

/-- `hexChar` never yields a colon. -/
theorem hexChar_ne_colon (n : Nat) : hexChar n ≠ ':' := by
  unfold hexChar hexDigits
  rcases Nat.lt_or_ge n 16 with h | h
  · interval_cases n <;> decide
  · rw [List.getD_eq_default]
    · decide
    · simpa using h

/-- A word renders to 8 hex characters. -/
theorem length_hex8 (w : Nat) : (hex8 w).length = 8 := by simp [hex8]

/-- No colon among a word's hex characters. -/
theorem colon_not_mem_hex8 (w : Nat) : ':' ∉ hex8 w := by
  intro h
  rcases List.mem_map.mp h with ⟨i, _, heq⟩
  exact hexChar_ne_colon _ heq

/-- A SHA-256 hex digest has 64 characters. -/
theorem length_sha256hexChars (m : List Nat) : (sha256hexChars m).length = 64 := by
  simp [sha256hexChars, length_hex8]

/-- No colon inside a SHA-256 hex digest. -/
theorem colon_not_mem_sha256hexChars (m : List Nat) : ':' ∉ sha256hexChars m := by
  intro h
  simp only [sha256hexChars, List.mem_append] at h
  rcases h with ((((((h | h) | h) | h) | h) | h) | h) <;>
    first
      | exact colon_not_mem_hex8 _ h
      | rcases h with h | h <;> exact colon_not_mem_hex8 _ h

/-- The character decomposition of a dual hash: digest, colon, digest. -/
theorem dual_hash_data (d : List Nat) :
    (dual_hash d).data
      = sha256hexChars d ++ ':' :: sha256hexChars (strBytes "blake3_fallback:" ++ d) := by
  show (String.mk (sha256hexChars d) ++ ":"
      ++ String.mk (sha256hexChars (strBytes "blake3_fallback:" ++ d))).data = _
  simp [String.data_append]

/-- `split(":")` never returns an empty list of parts. -/
theorem pySplitColon_ne_nil (l : List Char) : pySplitColon l ≠ [] := by
  cases l with
  | nil => simp [pySplitColon]
  | cons c t =>
      unfold pySplitColon
      cases pySplitColon t with
      | nil => simp
      | cons h r =>
          by_cases hc : c = ':' <;> simp [hc]

/-- A colon-free string splits to a single part. -/
theorem pySplitColon_no_colon (l : List Char) (h : ':' ∉ l) : pySplitColon l = [l] := by
  induction l with
  | nil => rfl
  | cons c t ih =>
      simp only [List.mem_cons, not_or] at h
      obtain ⟨hc, ht⟩ := h
      have hc' : ¬(c = ':') := fun hcc => hc hcc.symm
      unfold pySplitColon
      rw [ih ht]
      simp [hc']

/-- Splitting at the first colon when the prefix is colon-free. -/
theorem pySplitColon_append (a b : List Char) (ha : ':' ∉ a) :
    pySplitColon (a ++ ':' :: b) = a :: pySplitColon b := by
  induction a with
  | nil =>
      simp only [List.nil_append]
      cases hb : pySplitColon b with
      | nil => exact absurd hb (pySplitColon_ne_nil b)
      | cons h r =>
          unfold pySplitColon
          rw [hb]
          simp
  | cons c t ih =>
      simp only [List.mem_cons, not_or] at ha
      obtain ⟨hc, ht⟩ := ha
      have hc' : ¬(c = ':') := fun hcc => hc hcc.symm
      show pySplitColon (c :: (t ++ ':' :: b)) = _
      unfold pySplitColon
      rw [ih ht]
      simp only [hc', if_false, ite_false]
      cases b <;> rfl

/-- C6: `merkle` of the empty list is the dual hash of the empty string,
and `merkle` of a single item is exactly the dual hash of that item's
canonical serialization (sorted-key JSON for dicts, bytes otherwise) —
no pairwise combining step occurs. -/
theorem merkle_empty_single :
    merkle [] = dualHashStr "" ∧ ∀ x : MerkleItem, merkle [x] = dual_hash (canonical x) :=
  ⟨rfl, fun _ => rfl⟩

/-- C9 (implicit): in `emit_receipt`'s dict literal the payload is
merged after the stamped metadata but before the computed hash — for a
duplicate-free payload, a payload entry under "tenant_id", "ts" or
"receipt_type" overrides the stamped value in the returned receipt,
while any "payload_hash" entry is replaced by the freshly computed dual
hash of the canonical payload serialization. -/
theorem emit_receipt_merge_order (ty : String) (data : Receipt) (ts tenant : String)
    (hnd : (data.map Prod.fst).Nodup) :
    (∀ v, lookupField data "tenant_id" = some v →
      lookupField (emit_receipt ty data ts tenant) "tenant_id" = some v) ∧
    (∀ v, lookupField data "ts" = some v →
      lookupField (emit_receipt ty data ts tenant) "ts" = some v) ∧
    (∀ v, lookupField data "receipt_type" = some v →
      lookupField (emit_receipt ty data ts tenant) "receipt_type" = some v) ∧
    lookupField (emit_receipt ty data ts tenant) "payload_hash"
      = some (Json.str (dualHashStr (json_dumps (Json.obj data)))) := by
  refine ⟨?_, ?_, ?_, ?_⟩
  · intro v hv
    simp only [emit_receipt]
    rw [lookupField_insertPy_ne _ _ _ _ (by decide),
      lookupField_fold_insertPy data _ "tenant_id" hnd, hv]
    rfl
  · intro v hv
    simp only [emit_receipt]
    rw [lookupField_insertPy_ne _ _ _ _ (by decide),
      lookupField_fold_insertPy data _ "ts" hnd, hv]
    rfl
  · intro v hv
    simp only [emit_receipt]
    rw [lookupField_insertPy_ne _ _ _ _ (by decide),
      lookupField_fold_insertPy data _ "receipt_type" hnd, hv]
    rfl
  · simp only [emit_receipt]
    rw [lookupField_insertPy_self]

/-- C9 witness: a payload overriding all three stamped fields and
carrying a forged hash; the stamped values give way and the forged hash
is replaced. -/
theorem emit_receipt_merge_order_witness :
    lookupField (emit_receipt "test"
        [("tenant_id", Json.str "other"), ("ts", Json.str "1999"),
         ("receipt_type", Json.str "forged"), ("payload_hash", Json.str "bogus")]
        "2024-01-01T00:00:00+00:00" TENANT_ID) "tenant_id" = some (Json.str "other") :=
  (emit_receipt_merge_order "test"
    [("tenant_id", Json.str "other"), ("ts", Json.str "1999"),
     ("receipt_type", Json.str "forged"), ("payload_hash", Json.str "bogus")]
    "2024-01-01T00:00:00+00:00" TENANT_ID (by simp)).1 (Json.str "other") rfl

/-- Dual hashes always pass `validate_receipt`'s format check: one
colon, two 64-character parts. -/
theorem hashFormatCheck_dual_hash (d : List Nat) :
    hashFormatCheck (dual_hash d) = (true, "valid") := by
  unfold hashFormatCheck
  have hdata := dual_hash_data d
  have hmem : ':' ∈ (dual_hash d).data := by
    rw [hdata]
    exact List.mem_append.mpr (Or.inr (List.mem_cons_self _ _))
  have hcont : (dual_hash d).data.contains ':' = true := List.elem_iff.mpr hmem
  rw [hcont]
  simp only [Bool.true_eq_false, if_false, ite_false]
  rw [hdata, pySplitColon_append _ _ (colon_not_mem_sha256hexChars d),
    pySplitColon_no_colon _ (colon_not_mem_sha256hexChars _)]
  simp [length_sha256hexChars]

/-- C1 (amended): validating an emitted receipt succeeds for every
receipt type and every payload whose keys are unique and whose
"tenant_id" entry, if present, is the expected tenant — the payload is
merged over the stamped fields, so a payload with a different
"tenant_id" value overrides the stamp and fails validation. -/
theorem emit_receipt_validates (ty : String) (data : Receipt) (ts : String)
    (hnd : (data.map Prod.fst).Nodup)
    (ht : lookupField data "tenant_id" = none ∨
      lookupField data "tenant_id" = some (Json.str TENANT_ID)) :
    validate_receipt (emit_receipt ty data ts TENANT_ID) = some (true, "valid") := by
  have hbase : ∀ f : String, f ≠ "payload_hash" →
      lookupField (emit_receipt ty data ts TENANT_ID) f
        = (lookupField data f).elim
            (lookupField [("receipt_type", Json.str ty), ("ts", Json.str ts),
              ("tenant_id", Json.str TENANT_ID)] f) some := by
    intro f hf
    simp only [emit_receipt]
    rw [lookupField_insertPy_ne _ _ _ _ (Ne.symm hf),
      lookupField_fold_insertPy data _ f hnd]
  have hph : lookupField (emit_receipt ty data ts TENANT_ID) "payload_hash"
      = some (Json.str (dualHashStr (json_dumps (Json.obj data)))) := by
    simp only [emit_receipt]
    rw [lookupField_insertPy_self]
  have hty : ∃ w, lookupField (emit_receipt ty data ts TENANT_ID) "receipt_type" = some w := by
    rw [hbase "receipt_type" (by decide)]
    cases h : lookupField data "receipt_type" with
    | none => exact ⟨Json.str ty, rfl⟩
    | some w => exact ⟨w, rfl⟩
  have hts : ∃ w, lookupField (emit_receipt ty data ts TENANT_ID) "ts" = some w := by
    rw [hbase "ts" (by decide)]
    cases h : lookupField data "ts" with
    | none => exact ⟨Json.str ts, rfl⟩
    | some w => exact ⟨w, rfl⟩
  have htenant : lookupField (emit_receipt ty data ts TENANT_ID) "tenant_id"
      = some (Json.str TENANT_ID) := by
    rw [hbase "tenant_id" (by decide)]
    rcases ht with h | h <;> rw [h] <;> rfl
  obtain ⟨w1, hw1⟩ := hty
  obtain ⟨w2, hw2⟩ := hts
  have hmf : missingField (emit_receipt ty data ts TENANT_ID) = none := by
    simp [missingField, requiredFields, List.findSome?, hw1, hw2, htenant, hph]
  unfold validate_receipt
  rw [hmf, htenant, hph]
  simp [TENANT_ID, hashFormatCheck_dual_hash, dualHashStr]

/-- C1 witness: a plain one-field payload emitted under the default
tenant validates. -/
theorem emit_receipt_validates_witness :
    validate_receipt (emit_receipt "test" [("key", Json.str "value")]
      "2024-01-01T00:00:00+00:00" TENANT_ID) = some (true, "valid") :=
  emit_receipt_validates "test" [("key", Json.str "value")]
    "2024-01-01T00:00:00+00:00" (by simp) (Or.inl rfl)

/-- C1 counterexample: the claim allows arbitrary payload keys, but a
payload entry `"tenant_id": "evil"` overrides the stamped tenant, and
validation of the emitted receipt fails. -/
theorem emit_receipt_validate_counterexample :
    validate_receipt (emit_receipt "test" [("tenant_id", Json.str "evil")]
      "2024-01-01T00:00:00+00:00" TENANT_ID) ≠ some (true, "valid") := by
  have h : validate_receipt (emit_receipt "test" [("tenant_id", Json.str "evil")]
      "2024-01-01T00:00:00+00:00" TENANT_ID) = some (false, "Invalid tenant_id: evil") := rfl
  rw [h]
  simp

/-- C5 counterexample: `validate_receipt` checks only the lengths of
the two colon-separated components, not that their characters are
hexadecimal — a payload_hash of 64 'z's, a colon, and 64 more 'z's is
accepted even though 'z' is not a hex digit. -/
theorem validate_receipt_nonhex_counterexample :
    validate_receipt badHexReceipt = some (true, "valid") ∧ isHexChar 'z' = false ∧
      'z' ∈ (String.mk (List.replicate 64 'z' ++ ':' :: List.replicate 64 'z')).data := by
  refine ⟨rfl, rfl, ?_⟩
  simp [List.mem_append]

/-- A split with two parts means the string had a colon. -/
theorem colon_mem_of_pySplitColon_length_two (l : List Char)
    (h : (pySplitColon l).length = 2) : ':' ∈ l := by
  by_contra hnot
  rw [pySplitColon_no_colon _ hnot] at h
  simp at h

/-- The missing-field loop passes exactly when all four required fields
are present. -/
theorem missingField_none_iff (r : Receipt) :
    missingField r = none ↔
      ((lookupField r "receipt_type").isSome ∧ (lookupField r "ts").isSome ∧
       (lookupField r "tenant_id").isSome ∧ (lookupField r "payload_hash").isSome) := by
  have conv : ∀ f : String,
      ((if (lookupField r f).isNone then some f else none) = none) ↔
        (lookupField r f).isSome := by
    intro f
    cases hx : lookupField r f <;> simp
  unfold missingField requiredFields
  rw [List.findSome?_eq_none_iff]
  constructor
  · intro h
    exact ⟨(conv _).mp (h "receipt_type" (by simp)), (conv _).mp (h "ts" (by simp)),
      (conv _).mp (h "tenant_id" (by simp)), (conv _).mp (h "payload_hash" (by simp))⟩
  · rintro ⟨h1, h2, h3, h4⟩ f hf
    simp only [List.mem_cons, List.not_mem_nil, or_false] at hf
    rcases hf with rfl | rfl | rfl | rfl
    · exact (conv _).mpr h1
    · exact (conv _).mpr h2
    · exact (conv _).mpr h3
    · exact (conv _).mpr h4

/-- C5 (amended): `validate_receipt` returns `(True, "valid")` exactly
when the four required fields are present, the tenant is the expected
identity, and `payload_hash` is a string with exactly two
colon-separated components of 64 characters each — the characters are
not required to be hexadecimal. -/
theorem validate_receipt_spec (r : Receipt) :
    validate_receipt r = some (true, "valid") ↔
      ((lookupField r "receipt_type").isSome ∧ (lookupField r "ts").isSome ∧
       lookupField r "tenant_id" = some (Json.str TENANT_ID) ∧
       ∃ ph : String, lookupField r "payload_hash" = some (Json.str ph) ∧
         (pySplitColon ph.data).length = 2 ∧
         ((pySplitColon ph.data).getD 0 []).length = 64 ∧
         ((pySplitColon ph.data).getD 1 []).length = 64) := by
  constructor
  · intro h
    unfold validate_receipt at h
    split at h
    · simp at h
    rename_i hmf
    obtain ⟨p1, p2, p3, p4⟩ := (missingField_none_iff r).mp hmf
    split at h
    · rename_i s hten
      split at h
      · simp at h
      rename_i hs
      have hsT : s = TENANT_ID := not_not.mp hs
      subst hsT
      split at h
      · rename_i ph hph
        simp only [Option.some.injEq] at h
        refine ⟨p1, p2, hten, ph, hph, ?_⟩
        unfold hashFormatCheck at h
        split at h
        · simp at h
        dsimp only [] at h
        split at h
        · rename_i hcond
          simp only [Bool.and_eq_true, beq_iff_eq] at hcond
          exact ⟨hcond.1.1, hcond.1.2, hcond.2⟩
        · simp at h
      · simp at h
      · simp at h
    · simp at h
    · rename_i hten
      rw [hten] at p3
      simp at p3
  · rintro ⟨h1, h2, h3, ph, hph, hl2, h64a, h64b⟩
    unfold validate_receipt
    have hmf : missingField r = none :=
      (missingField_none_iff r).mpr ⟨h1, h2, by rw [h3]; rfl, by rw [hph]; rfl⟩
    rw [hmf, h3, hph]
    show some (hashFormatCheck ph) = some (true, "valid")
    unfold hashFormatCheck
    rw [show (ph.data.contains ':') = true from
      List.elem_iff.mpr (colon_mem_of_pySplitColon_length_two _ hl2)]
    simp only [hl2, h64a, h64b]
    simp

/-- When every nonblank line parses, the load loop returns the parsed
receipts appended to the accumulator, in order. -/
theorem loadGo_ok (lines : List String) :
    ∀ acc : List Json,
      (∀ l ∈ lines, (pyStrip l).data.isEmpty = false → (json_loads (pyStrip l)).isSome = true) →
      loadGo lines acc = Except.ok (acc ++ lines.filterMap
        (fun l => if (pyStrip l).data.isEmpty then none else json_loads (pyStrip l))) := by
  induction lines with
  | nil => intro acc _; simp [loadGo]
  | cons l t ih =>
      intro acc hall
      have hall_t : ∀ l' ∈ t, (pyStrip l').data.isEmpty = false →
          (json_loads (pyStrip l')).isSome = true :=
        fun l' hl' => hall l' (List.mem_cons_of_mem _ hl')
      unfold loadGo
      cases he : (pyStrip l).data.isEmpty with
      | true =>
          simp only [he, if_true, ite_true]
          rw [ih acc hall_t, List.filterMap_cons]
          have hfl : (if (pyStrip l).data.isEmpty then none else json_loads (pyStrip l))
              = (none : Option Json) := by
            rw [he]
            rfl
          rw [hfl]
      | false =>
          simp only [he, Bool.false_eq_true, if_false, ite_false]
          have hsome := hall l (List.mem_cons_self _ _) he
          obtain ⟨v, hv⟩ := Option.isSome_iff_exists.mp hsome
          rw [hv]
          show loadGo t (acc ++ [v]) = _
          rw [ih (acc ++ [v]) hall_t, List.filterMap_cons]
          have hfl : (if (pyStrip l).data.isEmpty then none else json_loads (pyStrip l))
              = some v := by
            rw [he]
            simpa using hv
          rw [hfl]
          simp

/-- A nonblank line that fails to parse aborts the load loop with an
error. -/
theorem loadGo_error (lines : List String) :
    ∀ acc : List Json,
      (∃ l ∈ lines, (pyStrip l).data.isEmpty = false ∧ json_loads (pyStrip l) = none) →
      ∃ e, loadGo lines acc = Except.error e := by
  induction lines with
  | nil => intro acc h; simp at h
  | cons l t ih =>
      intro acc h
      unfold loadGo
      cases he : (pyStrip l).data.isEmpty with
      | true =>
          simp only [he, if_true, ite_true]
          apply ih
          rcases h with ⟨l', hl', hne, hnone⟩
          rcases List.mem_cons.mp hl' with rfl | hmem
          · rw [he] at hne
            cases hne
          · exact ⟨l', hmem, hne, hnone⟩
      | false =>
          simp only [he, Bool.false_eq_true, if_false, ite_false]
          cases hj : json_loads (pyStrip l) with
          | some v =>
              apply ih
              rcases h with ⟨l', hl', hne, hnone⟩
              rcases List.mem_cons.mp hl' with rfl | hmem
              · rw [hj] at hnone
                cases hnone
              · exact ⟨l', hmem, hne, hnone⟩
          | none => exact ⟨pyStrip l, rfl⟩

/-- C2 (amended): `load_receipts` returns the parses of the nonblank
lines in order when they are all well-formed, and a missing file yields
the empty list — but a malformed (non-JSON) nonblank line raises
`json.JSONDecodeError`, aborting the load, rather than being skipped. -/
theorem load_receipts_spec (lines : List String) :
    ((∀ l ∈ lines, (pyStrip l).data.isEmpty = false → (json_loads (pyStrip l)).isSome = true) →
      load_receipts (some lines) = Except.ok (lines.filterMap
        (fun l => if (pyStrip l).data.isEmpty then none else json_loads (pyStrip l)))) ∧
    ((∃ l ∈ lines, (pyStrip l).data.isEmpty = false ∧ json_loads (pyStrip l) = none) →
      ∃ e, load_receipts (some lines) = Except.error e) ∧
    load_receipts none = Except.ok [] := by
  refine ⟨fun h => ?_, fun h => loadGo_error lines [] h, rfl⟩
  have := loadGo_ok lines [] h
  simpa [load_receipts] using this

/-- C2 witness: a one-receipt file with blank lines loads to exactly
that receipt. -/
theorem load_receipts_spec_witness :
    load_receipts (some ["\x7b\"a\": 1\x7d", "", "  "])
      = Except.ok [Json.obj [("a", Json.num 1)]] := by
  have h := (load_receipts_spec ["\x7b\"a\": 1\x7d", "", "  "]).1 (by decide)
  rw [h]
  rfl

/-- C2 counterexample: with a well-formed first line and a malformed
second line, `load_receipts` raises (models as an error) instead of
skipping the malformed line and returning the first receipt. -/
theorem load_receipts_malformed_counterexample :
    load_receipts (some ["\x7b\"a\": 1\x7d", "not json"]) = Except.error "not json" := rfl

/-- Bumping a key adds exactly one to that key's weight and leaves
other keys unchanged. -/
theorem wLookup_bumpWeight (ws : List ((String × String) × Nat))
    (k key : (String × String)) :
    wLookup (bumpWeight ws key) k = wLookup ws k + (if k = key then 1 else 0) := by
  induction ws with
  | nil =>
      by_cases h : k = key
      · simp [bumpWeight, wLookup, h]
      · simp [bumpWeight, wLookup, h, Ne.symm h]
  | cons kw t ih =>
      rcases kw with ⟨k0, w⟩
      by_cases h0 : k0 = key
      · subst h0
        by_cases hk : k0 = k
        · subst hk
          simp [bumpWeight, wLookup]
        · simp [bumpWeight, wLookup, hk, Ne.symm hk]
      · by_cases hk : k0 = k
        · subst hk
          simp [bumpWeight, wLookup, h0, Ne.symm h0]
        · simp [bumpWeight, wLookup, h0, hk, ih]

/-- Folding the pair bumps counts, per key, the pairs mapping to it. -/
theorem wLookup_foldl_bump (ps : List (String × String)) :
    ∀ (ws : List ((String × String) × Nat)) (key : String × String),
      wLookup (ps.foldl (fun a p => bumpWeight a (sortPair p.1 p.2)) ws) key
        = wLookup ws key + ps.countP (fun p => sortPair p.1 p.2 == key) := by
  induction ps with
  | nil => intro ws key; simp
  | cons p t ih =>
      intro ws key
      simp only [List.foldl_cons, List.countP_cons]
      rw [ih (bumpWeight ws (sortPair p.1 p.2)) key, wLookup_bumpWeight]
      by_cases h : sortPair p.1 p.2 = key
      · simp [h]
        omega
      · have h' : (sortPair p.1 p.2 == key) = false := by
          rw [beq_eq_false_iff_ne]
          exact h
        simp [Ne.symm h, h']

/-- Two sorted pairs of distinct elements agree exactly when they name
the same unordered pair. -/
theorem sortPair_eq_iff (x y p q : String) (hpq : p ≠ q) :
    sortPair x y = sortPair p q ↔ (x = p ∧ y = q) ∨ (x = q ∧ y = p) := by
  unfold sortPair
  split_ifs with h1 h2 h2
  · simp only [Prod.mk.injEq]
    constructor
    · exact fun h => Or.inl h
    · rintro (⟨rfl, rfl⟩ | ⟨rfl, rfl⟩)
      · exact ⟨rfl, rfl⟩
      · exact absurd (le_antisymm h2 h1) hpq
  · simp only [Prod.mk.injEq]
    constructor
    · rintro ⟨rfl, rfl⟩
      exact Or.inr ⟨rfl, rfl⟩
    · rintro (⟨rfl, rfl⟩ | ⟨rfl, rfl⟩)
      · exact absurd h1 h2
      · exact ⟨rfl, rfl⟩
  · simp only [Prod.mk.injEq]
    constructor
    · rintro ⟨rfl, rfl⟩
      exact Or.inr ⟨rfl, rfl⟩
    · rintro (⟨rfl, rfl⟩ | ⟨rfl, rfl⟩)
      · exact absurd h2 h1
      · exact ⟨rfl, rfl⟩
  · simp only [Prod.mk.injEq]
    constructor
    · rintro ⟨rfl, rfl⟩
      exact Or.inl ⟨rfl, rfl⟩
    · rintro (⟨rfl, rfl⟩ | ⟨rfl, rfl⟩)
      · exact ⟨rfl, rfl⟩
      · rcases le_total x y with h | h
        · exact absurd h h1
        · exact absurd h h2

/-- Sorting makes the pair orderless. -/
theorem sortPair_comm (a b : String) : sortPair a b = sortPair b a := by
  unfold sortPair
  split_ifs with h1 h2 h2
  · rw [le_antisymm h1 h2]
  · rfl
  · rfl
  · rcases le_total a b with h | h
    · exact absurd h h1
    · exact absurd h h2

/-- Pairs produced by the double loop draw both components from the
list, and from distinct positions (distinct values when it has no
duplicates). -/
theorem allPairs_mem {l : List String} (hnd : l.Nodup) :
    ∀ pr ∈ allPairs l, pr.1 ∈ l ∧ pr.2 ∈ l ∧ pr.1 ≠ pr.2 := by
  induction l with
  | nil => intro pr hpr; simp [allPairs] at hpr
  | cons x xs ih =>
      intro pr hpr
      rcases List.nodup_cons.mp hnd with ⟨hx, hndxs⟩
      rcases List.mem_append.mp hpr with h | h
      · rcases List.mem_map.mp h with ⟨y, hy, rfl⟩
        refine ⟨by simp, by simp [hy], fun he => hx ?_⟩
        rw [show x = y from he]
        exact hy
      · rcases ih hndxs pr h with ⟨h1, h2, h3⟩
        exact ⟨List.mem_cons_of_mem _ h1, List.mem_cons_of_mem _ h2, h3⟩

/-- In a duplicate-free list, the double loop emits each unordered pair
of present elements exactly once. -/
theorem allPairs_countP (p q : String) (hpq : p ≠ q) :
    ∀ (l : List String), l.Nodup →
      (allPairs l).countP (fun pr => sortPair pr.1 pr.2 == sortPair p q)
        = if p ∈ l ∧ q ∈ l then 1 else 0 := by
  intro l
  induction l with
  | nil => intro _; simp [allPairs]
  | cons x xs ih =>
      intro hnd
      rcases List.nodup_cons.mp hnd with ⟨hx, hndxs⟩
      unfold allPairs
      rw [List.countP_append, List.countP_map, ih hndxs]
      by_cases hxp : x = p
      · subst hxp
        have hmap : xs.countP ((fun pr => sortPair pr.1 pr.2 == sortPair x q)
            ∘ (fun y => (x, y))) = xs.countP (fun y => y == q) := by
          apply List.countP_congr
          intro y _
          simp only [Function.comp]
          by_cases hyq : y = q
          · subst hyq
            simp
          · have h1 : sortPair x y ≠ sortPair x q := by
              intro heq
              rcases (sortPair_eq_iff x y x q hpq).mp heq with ⟨_, h⟩ | ⟨h, _⟩
              · exact hyq h
              · exact hpq h
            have h2 : (sortPair x y == sortPair x q) = false := by
              rw [beq_eq_false_iff_ne]
              exact h1
            have h3 : (y == q) = false := by
              rw [beq_eq_false_iff_ne]
              exact hyq
            rw [h2, h3]
        rw [hmap]
        have hcnt : xs.countP (fun y => y == q) = if q ∈ xs then 1 else 0 := by
          by_cases hq : q ∈ xs
          · rw [if_pos hq]
            exact List.count_eq_one_of_mem hndxs hq
          · rw [if_neg hq]
            exact List.count_eq_zero_of_not_mem hq
        rw [hcnt, if_neg (show ¬(x ∈ xs ∧ q ∈ xs) from fun hc => hx hc.1)]
        by_cases hq : q ∈ xs
        · rw [if_pos hq, if_pos ⟨List.mem_cons_self _ _, List.mem_cons_of_mem _ hq⟩]
        · have hnc : ¬(x ∈ x :: xs ∧ q ∈ x :: xs) := by
            intro hc
            rcases List.mem_cons.mp hc.2 with h | h
            · exact hpq h.symm
            · exact hq h
          rw [if_neg hq, if_neg hnc]
      · by_cases hxq : x = q
        · subst hxq
          have hmap : xs.countP ((fun pr => sortPair pr.1 pr.2 == sortPair p x)
              ∘ (fun y => (x, y))) = xs.countP (fun y => y == p) := by
            apply List.countP_congr
            intro y _
            simp only [Function.comp]
            by_cases hyp : y = p
            · subst hyp
              rw [sortPair_comm x y]
              simp
            · have h1 : sortPair x y ≠ sortPair p x := by
                intro heq
                rcases (sortPair_eq_iff x y p x hpq).mp heq with ⟨h, _⟩ | ⟨_, h⟩
                · exact hxp h
                · exact hyp h
              have h2 : (sortPair x y == sortPair p x) = false := by
                rw [beq_eq_false_iff_ne]
                exact h1
              have h3 : (y == p) = false := by
                rw [beq_eq_false_iff_ne]
                exact hyp
              rw [h2, h3]
          rw [hmap]
          have hcnt : xs.countP (fun y => y == p) = if p ∈ xs then 1 else 0 := by
            by_cases hp : p ∈ xs
            · rw [if_pos hp]
              exact List.count_eq_one_of_mem hndxs hp
            · rw [if_neg hp]
              exact List.count_eq_zero_of_not_mem hp
          rw [hcnt, if_neg (show ¬(p ∈ xs ∧ x ∈ xs) from fun hc => hx hc.2)]
          by_cases hp : p ∈ xs
          · rw [if_pos hp, if_pos ⟨List.mem_cons_of_mem _ hp, List.mem_cons_self _ _⟩]
          · have hnc : ¬(p ∈ x :: xs ∧ x ∈ x :: xs) := by
              intro hc
              rcases List.mem_cons.mp hc.1 with h | h
              · exact hpq h
              · exact hp h
            rw [if_neg hp, if_neg hnc]
        · have hmap : xs.countP ((fun pr => sortPair pr.1 pr.2 == sortPair p q)
              ∘ (fun y => (x, y))) = 0 := by
            rw [List.countP_eq_zero]
            intro y _
            simp only [Function.comp, beq_iff_eq]
            intro heq
            rcases (sortPair_eq_iff x y p q hpq).mp heq with ⟨h, _⟩ | ⟨h, _⟩
            · exact hxp h
            · exact hxq h
          rw [hmap]
          simp [List.mem_cons, Ne.symm hxp, Ne.symm hxq]

/-- Group accumulation: each processed group adds one to the weight of
every unordered pair it contains. -/
theorem wLookup_foldl_groups (groups : List (String × List String)) (p q : String)
    (hpq : p ≠ q) :
    ∀ ws, (∀ g ∈ groups, g.2.Nodup) →
      wLookup (groups.foldl (fun a g => (allPairs g.2).foldl
          (fun a2 pr => bumpWeight a2 (sortPair pr.1 pr.2)) a) ws) (sortPair p q)
        = wLookup ws (sortPair p q)
          + groups.countP (fun g => g.2.contains p && g.2.contains q) := by
  induction groups with
  | nil => intro ws _; simp
  | cons g t ih =>
      intro ws hnd
      simp only [List.foldl_cons, List.countP_cons]
      rw [ih _ (fun g' hg' => hnd g' (List.mem_cons_of_mem _ hg'))]
      rw [wLookup_foldl_bump]
      rw [allPairs_countP p q hpq g.2 (hnd g (List.mem_cons_self _ _))]
      have hiff : (p ∈ g.2 ∧ q ∈ g.2) ↔ ((g.2.contains p && g.2.contains q) = true) := by
        constructor
        · rintro ⟨h1, h2⟩
          rw [Bool.and_eq_true]
          exact ⟨List.elem_iff.mpr h1, List.elem_iff.mpr h2⟩
        · intro h
          rw [Bool.and_eq_true] at h
          exact ⟨List.elem_iff.mp h.1, List.elem_iff.mp h.2⟩
      by_cases hc : p ∈ g.2 ∧ q ∈ g.2
      · rw [if_pos hc, if_pos (hiff.mp hc)]
        omega
      · rw [if_neg hc, if_neg (fun hb => hc (hiff.mpr hb))]
        omega

/-- The provider-id field of a minimal claim, through the truthiness
test. -/
theorem getStrField_mkIngest_provider (e pat : String) (he : e ≠ "") :
    getStrField (mkIngestClaim e pat) "provider_id" = some e := by
  simp [getStrField, mkIngestClaim, lookupField, he]

/-- The patient-id field of a minimal claim. -/
theorem getStrField_mkIngest_patient (e pat : String) (hpat : pat ≠ "") :
    getStrField (mkIngestClaim e pat) "patient_id" = some pat := by
  simp [getStrField, mkIngestClaim, lookupField, hpat]

/-- The patient-providers map after ingesting one minimal claim. -/
theorem ingestClaim_pp (st : BuildSt) (e pat : String) (he : e ≠ "") (hpat : pat ≠ "") :
    (ingestClaim st (mkIngestClaim e pat)).patient_providers
      = aset st.patient_providers pat
          (setInsert ((alookup st.patient_providers pat).getD []) e) := by
  simp only [ingestClaim, getStrField_mkIngest_provider e pat he,
    getStrField_mkIngest_patient e pat hpat]

/-- Ingesting claims that all share one patient keeps the
patient-providers map a single group and set-inserts each provider. -/
theorem ingest_fold_pp (es : List String) :
    ∀ (st : BuildSt) (pat : String) (acc : List String),
      st.patient_providers = [(pat, acc)] → pat ≠ "" → (∀ e ∈ es, e ≠ "") →
      ((es.map (fun e => mkIngestClaim e pat)).foldl ingestClaim st).patient_providers
        = [(pat, es.foldl setInsert acc)] := by
  induction es with
  | nil => intro st pat acc hpp _ _; simpa using hpp
  | cons e t ih =>
      intro st pat acc hpp hpat hne
      have he : e ≠ "" := hne e (List.mem_cons_self _ _)
      simp only [List.map_cons, List.foldl_cons]
      refine ih (ingestClaim st (mkIngestClaim e pat)) pat (setInsert acc e) ?_ hpat
        (fun e' he' => hne e' (List.mem_cons_of_mem _ he'))
      rw [ingestClaim_pp st e pat he hpat, hpp]
      simp [aset, alookup]

/-- Set-inserting fresh, duplicate-free elements appends them in
order. -/
theorem foldl_setInsert (es : List String) :
    ∀ acc, es.Nodup → (∀ e ∈ es, e ∉ acc) → es.foldl setInsert acc = acc ++ es := by
  induction es with
  | nil => intro acc _ _; simp
  | cons e t ih =>
      intro acc hnd hdisj
      rcases List.nodup_cons.mp hnd with ⟨het, hndt⟩
      simp only [List.foldl_cons]
      have he : e ∉ acc := hdisj e (List.mem_cons_self _ _)
      have h1 : setInsert acc e = acc ++ [e] := by simp [setInsert, he]
      have h2 := ih (acc ++ [e]) hndt (by
        intro e' he' hmem
        rcases List.mem_append.mp hmem with h | h
        · exact hdisj e' (List.mem_cons_of_mem _ he') h
        · rw [List.mem_singleton] at h
          subst h
          exact het he')
      rw [h1, h2]
      simp

/-- Bumping a key absent from the accumulator appends it with weight
1. -/
theorem bumpWeight_fresh (ws : List ((String × String) × Nat)) (key : String × String)
    (h : key ∉ ws.map Prod.fst) : bumpWeight ws key = ws ++ [(key, 1)] := by
  induction ws with
  | nil => rfl
  | cons kw t ih =>
      rcases kw with ⟨k, w⟩
      simp only [List.map_cons, List.mem_cons, not_or] at h
      obtain ⟨hk, ht⟩ := h
      simp [bumpWeight, Ne.symm hk, ih ht]

/-- Folding bumps of pairwise-distinct fresh keys appends each with
weight 1. -/
theorem foldl_bump_fresh (ps : List (String × String)) :
    ∀ ws, ((ps.map (fun p => sortPair p.1 p.2)).Nodup) →
      (∀ p ∈ ps, sortPair p.1 p.2 ∉ ws.map Prod.fst) →
      ps.foldl (fun a p => bumpWeight a (sortPair p.1 p.2)) ws
        = ws ++ ps.map (fun p => (sortPair p.1 p.2, 1)) := by
  induction ps with
  | nil => intro ws _ _; simp
  | cons p t ih =>
      intro ws hnd hfresh
      rcases List.nodup_cons.mp hnd with ⟨hp, hndt⟩
      simp only [List.foldl_cons, List.map_cons]
      rw [bumpWeight_fresh ws _ (hfresh p (List.mem_cons_self _ _))]
      have h2 := ih (ws ++ [(sortPair p.1 p.2, 1)]) hndt (by
        intro p' hp' hmem
        rw [List.map_append, List.mem_append] at hmem
        rcases hmem with h | h
        · exact hfresh p' (List.mem_cons_of_mem _ hp') h
        · simp only [List.map_cons, List.map_nil, List.mem_singleton] at h
          have hm : sortPair p'.1 p'.2 ∈ t.map (fun pr => sortPair pr.1 pr.2) :=
            List.mem_map_of_mem _ hp'
          rw [h] at hm
          exact hp hm)
      rw [h2]
      simp

/-- With a duplicate-free node list, the double loop's sorted pair keys
are pairwise distinct. -/
theorem allPairs_keys_nodup (l : List String) (hnd : l.Nodup) :
    ((allPairs l).map (fun pr => sortPair pr.1 pr.2)).Nodup := by
  induction l with
  | nil => simp [allPairs]
  | cons x xs ih =>
      rcases List.nodup_cons.mp hnd with ⟨hx, hndxs⟩
      unfold allPairs
      rw [List.map_append, List.nodup_append]
      refine ⟨?_, ih hndxs, ?_⟩
      · rw [List.map_map]
        refine List.Nodup.map_on ?_ hndxs
        intro y hy z hz heq
        simp only [Function.comp] at heq
        have hxz : x ≠ z := fun he => hx (he ▸ hz)
        rcases (sortPair_eq_iff x y x z hxz).mp heq with ⟨_, h⟩ | ⟨h, _⟩
        · exact h
        · exact absurd h hxz
      · intro a ha hb
        rw [List.map_map] at ha
        rcases List.mem_map.mp ha with ⟨y, hy, rfl⟩
        rcases List.mem_map.mp hb with ⟨pr, hpr, heq⟩
        rcases allPairs_mem hndxs pr hpr with ⟨h1, h2, _⟩
        have hxy : x ≠ y := fun he => hx (he ▸ hy)
        simp only [Function.comp] at heq
        rcases (sortPair_eq_iff pr.1 pr.2 x y hxy).mp heq with ⟨hh, _⟩ | ⟨_, hh⟩
        · exact hx (hh ▸ h1)
        · exact hx (hh ▸ h2)

/-- The double loop emits `n choose 2` pairs. -/
theorem allPairs_length {α : Type} (l : List α) :
    (allPairs l).length = l.length.choose 2 := by
  induction l with
  | nil => simp [allPairs]
  | cons x xs ih =>
      unfold allPairs
      rw [List.length_append, List.length_map, ih,
        show (x :: xs).length = xs.length + 1 from rfl,
        Nat.choose_succ_succ, Nat.choose_one_right]

/-- C7: in the co-occurrence graph, each unordered pair of distinct
entities seen together under one link value gains exactly one unit of
edge weight (the weight of a pair equals the number of link groups
containing both), and N distinct entities sharing exactly one link value
produce exactly N·(N−1)/2 edges, every one of weight 1. -/
theorem build_provider_graph_cooccurrence :
    (∀ (groups : List (String × List String)) (p q : String), p ≠ q →
      (∀ g ∈ groups, g.2.Nodup) →
      wLookup (edgeWeights groups) (sortPair p q)
        = (groups.filter (fun g => g.2.contains p && g.2.contains q)).length) ∧
    (∀ (es : List String) (pat : String), es.Nodup → (∀ e ∈ es, e ≠ "") → pat ≠ "" →
      (build_provider_graph (es.map (fun e => mkIngestClaim e pat))).edges.length
          = es.length * (es.length - 1) / 2 ∧
      ∀ ed ∈ (build_provider_graph (es.map (fun e => mkIngestClaim e pat))).edges,
        ed.weight = 1) := by
  constructor
  · intro groups p q hpq hnd
    have h := wLookup_foldl_groups groups p q hpq [] hnd
    rw [List.countP_eq_length_filter] at h
    simpa [edgeWeights, wLookup] using h
  · intro es pat hnd hne hpat
    have hfilter : (es.map (fun e => mkIngestClaim e pat)).filter isMedicaidIngest
        = es.map (fun e => mkIngestClaim e pat) := by
      apply List.filter_eq_self.mpr
      intro c hc
      rcases List.mem_map.mp hc with ⟨e, _, rfl⟩
      rfl
    have hedges : (build_provider_graph (es.map (fun e => mkIngestClaim e pat))).edges
        = ((allPairs es).map (fun pr => (sortPair pr.1 pr.2, 1))).map
            (fun kw => Edge.mk kw.1.1 kw.1.2 kw.2 "shared_patient") := by
      cases es with
      | nil => rfl
      | cons e0 rest =>
          rcases List.nodup_cons.mp hnd with ⟨he0r, hndr⟩
          have he0 : e0 ≠ "" := hne e0 (List.mem_cons_self _ _)
          have hst0 : (ingestClaim ⟨[], [], []⟩ (mkIngestClaim e0 pat)).patient_providers
              = [(pat, [e0])] := by
            rw [ingestClaim_pp ⟨[], [], []⟩ e0 pat he0 hpat]
            rfl
          have hpp := ingest_fold_pp rest (ingestClaim ⟨[], [], []⟩ (mkIngestClaim e0 pat))
            pat [e0] hst0 hpat (fun e' he' => hne e' (List.mem_cons_of_mem _ he'))
          have hfold : rest.foldl setInsert [e0] = e0 :: rest := by
            rw [foldl_setInsert rest [e0] hndr (by
              intro e' he' hmem
              rw [List.mem_singleton] at hmem
              subst hmem
              exact he0r he')]
            rfl
          have hew : edgeWeights [(pat, e0 :: rest)]
              = (allPairs (e0 :: rest)).map (fun pr => (sortPair pr.1 pr.2, 1)) := by
            have h := foldl_bump_fresh (allPairs (e0 :: rest)) []
              (allPairs_keys_nodup (e0 :: rest) hnd) (by intro p _ hmem; simp at hmem)
            simpa [edgeWeights] using h
          simp only [build_provider_graph]
          rw [hfilter]
          simp only [List.map_cons, List.foldl_cons]
          rw [hpp, hfold, hew]
    constructor
    · rw [hedges]
      simp only [List.length_map]
      rw [allPairs_length, Nat.choose_two_right]
    · intro ed hed
      rw [hedges] at hed
      rcases List.mem_map.mp hed with ⟨kw, hkw, rfl⟩
      rcases List.mem_map.mp hkw with ⟨pr, _, rfl⟩
      rfl

/-- C7 witness: three distinct providers sharing one patient produce
3·2/2 = 3 edges. -/
theorem build_provider_graph_cooccurrence_witness :
    (build_provider_graph (["P1", "P2", "P3"].map
      (fun e => mkIngestClaim e "PAT"))).edges.length = 3 := by
  have h := (build_provider_graph_cooccurrence.2 ["P1", "P2", "P3"] "PAT"
    (by decide) (by decide) (by decide)).1
  simpa using h

/-- Every cluster appended by one loop iteration is either inherited
from the state or built by `mkCluster`. -/
theorem clusterStep_mem (ord : List String → List String) (adj : Adj)
    (edges : List Edge) (m fuel : Nat) (st : List String × List Cluster)
    (n : NodeRec) (c : Cluster) (hc : c ∈ (clusterStep ord adj edges m fuel st n).2) :
    c ∈ st.2 ∨ ∃ idx comp ce, c = mkCluster idx comp ce := by
  unfold clusterStep clusterFinish at hc
  by_cases h1 : n.provider_id ∈ st.1
  · rw [if_pos h1] at hc
    exact Or.inl hc
  · rw [if_neg h1] at hc
    split at hc
    · rcases List.mem_append.mp hc with h | h
      · exact Or.inl h
      · rcases List.mem_singleton.mp h with rfl
        exact Or.inr ⟨_, _, _, rfl⟩
    · exact Or.inl hc

/-- Every cluster produced by the whole `for node in nodes:` fold is
built by `mkCluster` (given that the initial state only holds such
clusters). -/
theorem foldl_clusterStep_mem (ord : List String → List String) (adj : Adj)
    (edges : List Edge) (m fuel : Nat) :
    ∀ (nodes : List NodeRec) (st : List String × List Cluster),
      (∀ c ∈ st.2, ∃ idx comp ce, c = mkCluster idx comp ce) →
      ∀ c ∈ (nodes.foldl (clusterStep ord adj edges m fuel) st).2,
        ∃ idx comp ce, c = mkCluster idx comp ce := by
  intro nodes
  induction nodes with
  | nil => intro st hst c hc; exact hst c hc
  | cons n t ih =>
      intro st hst c hc
      refine ih _ ?_ c hc
      intro c' hc'
      rcases clusterStep_mem ord adj edges m fuel st n c' hc' with h | h
      · exact hst c' h
      · exact h

/-- C10: the density denominator is clamped to at least 1, so every
cluster returned by `detect_clusters` — for every graph and every
`min_size`, including `min_size ≤ 1`, which admits singleton
components — has a well-defined density equal to its edge count divided
by a denominator of at least 1 (never a division by zero). -/
theorem detect_clusters_density_total (g : Graph) (m : Nat) (c : Cluster)
    (hc : c ∈ detect_clusters g m) :
    (1 : ℚ) ≤ max 1 (((c.size : ℚ) * ((c.size : ℚ) - 1)) / 2) ∧
    c.density = (c.edge_count : ℚ)
      / max 1 (((c.size : ℚ) * ((c.size : ℚ) - 1)) / 2) := by
  refine ⟨le_max_left 1 _, ?_⟩
  unfold detect_clusters detectClustersWith at hc
  by_cases hn : g.nodes.isEmpty
  · rw [if_pos hn] at hc
    exact absurd hc (List.not_mem_nil c)
  · rw [if_neg hn] at hc
    rcases foldl_clusterStep_mem _ _ _ _ _ g.nodes ([], []) (by intro c' hc'; cases hc')
      c hc with ⟨idx, comp, ce, rfl⟩
    simp [mkCluster]

/-- C10 witness: the concrete cluster returned on the two-node graph
satisfies the density equation with its clamped denominator. -/
theorem detect_clusters_density_total_witness :
    (1 : ℚ) ≤ max 1 ((((Cluster.mk "cluster_1" ["A", "B"] 2 1 1 1).size : ℚ)
        * (((Cluster.mk "cluster_1" ["A", "B"] 2 1 1 1).size : ℚ) - 1)) / 2) ∧
    (Cluster.mk "cluster_1" ["A", "B"] 2 1 1 1).density
      = ((Cluster.mk "cluster_1" ["A", "B"] 2 1 1 1).edge_count : ℚ)
        / max 1 ((((Cluster.mk "cluster_1" ["A", "B"] 2 1 1 1).size : ℚ)
            * (((Cluster.mk "cluster_1" ["A", "B"] 2 1 1 1).size : ℚ) - 1)) / 2) :=
  detect_clusters_density_total exampleGraphAB 2 _ (by
    have h : detect_clusters exampleGraphAB 2
        = [Cluster.mk "cluster_1" ["A", "B"] 2 1 1 1] := by
      with_unfolding_all rfl
    rw [h]
    exact List.mem_singleton_self _)

/-- C8 counterexample: the claim "score is 0 whenever ratio ≥ baseline"
fails when the baseline is non-positive, because the code checks
`ratio <= 0` (returning 1) before comparing against the baseline.
At ratio = -1/2, baseline = -1 we have ratio ≥ baseline but score = 1. -/
theorem compression_fraud_score_claim_counterexample :
    ((-1 : ℚ) ≤ (-1 : ℚ)/2) ∧ compression_fraud_score (-1/2) (-1) ≠ 0 := by
  refine ⟨by norm_num, ?_⟩
  unfold compression_fraud_score
  rw [if_pos (by norm_num)]
  norm_num

/-- C8 (amended): the non-positive-ratio check precedes the baseline
comparison.  For every baseline: a non-positive ratio scores 1; a
positive ratio at or above the baseline scores 0; a ratio at or below
the floor threshold (0.40), yet below the baseline, scores 1; strictly
between floor and baseline the score is the inverted linear
interpolation (baseline − ratio)/(baseline − floor); the score always
lies in [0,1]; and on the open interval a lower ratio yields a strictly
higher score. -/
theorem compression_fraud_score_spec (b : ℚ) :
    (∀ r : ℚ, r ≤ 0 → compression_fraud_score r b = 1) ∧
    (∀ r : ℚ, 0 < r → b ≤ r → compression_fraud_score r b = 0) ∧
    (∀ r : ℚ, 0 < r → r < b → r ≤ COMPRESSION_FRAUD_THRESHOLD →
      compression_fraud_score r b = 1) ∧
    (∀ r : ℚ, COMPRESSION_FRAUD_THRESHOLD < r → r < b →
      compression_fraud_score r b = (b - r) / (b - COMPRESSION_FRAUD_THRESHOLD)) ∧
    (∀ r : ℚ, 0 ≤ compression_fraud_score r b ∧ compression_fraud_score r b ≤ 1) ∧
    (∀ r₁ r₂ : ℚ, COMPRESSION_FRAUD_THRESHOLD < r₁ → r₁ < r₂ → r₂ < b →
      compression_fraud_score r₂ b < compression_fraud_score r₁ b) := by
  have hinterp : ∀ r : ℚ, COMPRESSION_FRAUD_THRESHOLD < r → r < b →
      compression_fraud_score r b = (b - r) / (b - COMPRESSION_FRAUD_THRESHOLD) := by
    intro r hf hb
    have hf0 : (0 : ℚ) < COMPRESSION_FRAUD_THRESHOLD := by
      unfold COMPRESSION_FRAUD_THRESHOLD; norm_num
    have hr0 : (0 : ℚ) < r := lt_trans hf0 hf
    have hden : (0 : ℚ) < b - COMPRESSION_FRAUD_THRESHOLD := by linarith
    unfold compression_fraud_score
    rw [if_neg (by linarith), if_neg (by linarith), if_neg (by linarith)]
    have hval : 1 - (r - COMPRESSION_FRAUD_THRESHOLD) / (b - COMPRESSION_FRAUD_THRESHOLD)
        = (b - r) / (b - COMPRESSION_FRAUD_THRESHOLD) := by
      field_simp
    have hnum : (0 : ℚ) < b - r := by linarith
    have h0 : (0 : ℚ) ≤ (b - r) / (b - COMPRESSION_FRAUD_THRESHOLD) :=
      le_of_lt (div_pos hnum hden)
    have h1 : (b - r) / (b - COMPRESSION_FRAUD_THRESHOLD) ≤ 1 := by
      rw [div_le_one hden]; linarith
    simp only [hval]
    rw [min_eq_right h1, max_eq_right h0]
  refine ⟨?_, ?_, ?_, hinterp, ?_, ?_⟩
  · intro r hr
    unfold compression_fraud_score
    rw [if_pos hr]
  · intro r hr hb
    unfold compression_fraud_score
    rw [if_neg (by linarith), if_pos hb]
  · intro r hr hb hf
    unfold compression_fraud_score
    rw [if_neg (by linarith), if_neg (by linarith), if_pos hf]
  · intro r
    unfold compression_fraud_score
    by_cases h1 : r ≤ 0
    · rw [if_pos h1]; norm_num
    rw [if_neg h1]
    by_cases h2 : b ≤ r
    · rw [if_pos h2]; norm_num
    rw [if_neg h2]
    by_cases h3 : r ≤ COMPRESSION_FRAUD_THRESHOLD
    · rw [if_pos h3]; norm_num
    rw [if_neg h3]
    constructor
    · exact le_max_left 0 _
    · exact max_le (by norm_num) (min_le_left 1 _)
  · intro r₁ r₂ h₁ h₁₂ h₂
    have hden : (0 : ℚ) < b - COMPRESSION_FRAUD_THRESHOLD := by linarith
    rw [hinterp r₁ h₁ (by linarith), hinterp r₂ (by linarith) h₂]
    exact (div_lt_div_iff_of_pos_right hden).mpr (by linarith)

/-- C3 counterexample: `detect_clusters` does not drop low-weight edges
(it has no minimum-edge-weight parameter at all).  On a two-node graph
whose only edge has weight 1, with minEdgeWeight 2 and minSize 2, the
spec pipeline drops the edge and returns no cluster, while the code
clusters A and B together. -/
theorem detect_clusters_no_edge_filter_counterexample :
    detect_clusters exampleGraphAB 2 ≠ findComponents exampleGraphAB 2 2 := by decide

/-- C3 (amended): `detect_clusters` performs no edge-weight filtering;
it computes connected components over all edges, discards components
below `min_size`, and reports density and aggregate weight — so it
agrees with the spec's `FindComponents` pipeline exactly when no edge
falls below the threshold (the drop step is a no-op). -/
theorem detect_clusters_eq_findComponents (g : Graph) (w m : Nat)
    (h : ∀ e ∈ g.edges, w ≤ e.weight) :
    detect_clusters g m = findComponents g w m := by
  unfold findComponents
  have hfilter : g.edges.filter (fun e => decide (w ≤ e.weight)) = g.edges :=
    List.filter_eq_self.mpr (fun e he => decide_eq_true (h e he))
  have hg : dropEdgesBelow g w = g := by
    unfold dropEdgesBelow
    rw [hfilter]
  rw [hg]

/-- C3 witness: on the two-node graph with its weight-1 edge, threshold
1 keeps every edge and the two sides agree. -/
theorem detect_clusters_eq_findComponents_witness :
    detect_clusters exampleGraphAB 2 = findComponents exampleGraphAB 1 2 :=
  detect_clusters_eq_findComponents exampleGraphAB 1 2 (by decide)

/-- C4: `detect_clusters` iterates each BFS node's neighbor `set`, whose
iteration order is not a function of the input (Python string hashing is
randomized per process).  With insertion order A sees [B, C] and the
cluster is listed [A, B, C]; with the reversed order the same input
yields [A, C, B] — so two runs on identical input can disagree on the
member order within a cluster, violating the required determinism. -/
theorem detect_clusters_set_order_dependent :
    detectClustersWith (fun l => l) exampleGraphABC 3
      ≠ detectClustersWith List.reverse exampleGraphABC 3 := by decide

/-- C8 witness: at ratio 1/2, baseline 0.65 (both strictly between the
floor 0.40 and the baseline), the interpolation formula applies. -/
theorem compression_fraud_score_spec_witness :
    compression_fraud_score (1/2) (13/20)
      = ((13 : ℚ)/20 - 1/2) / (13/20 - COMPRESSION_FRAUD_THRESHOLD) :=
  (compression_fraud_score_spec (13/20)).2.2.2.1 (1/2)
    (by unfold COMPRESSION_FRAUD_THRESHOLD; norm_num) (by norm_num)

end AzProof
